import Mathlib

/-
Verification of EphemeralLinksReuploader (a Discord bot that re-hosts
short-lived CDN links as attachments) against its natural-language spec.

The development shallowly embeds the two JavaScript sources:
  * `bot.js` (multi-link variant, per-guild policy, slash commands), and
  * `index.js` (single-link variant with a fixed CDN domain regex).
Strings are embedded as `List Char`; network and file-system behaviour is
supplied by per-link environments (oracles); every handler is a pure
function from message, policy state and environment to a list of effects.
-/

namespace ELR

/-- Strings of the embedded program, as lists of characters. -/
abbrev Str := List Char

/-- Convert a Lean string literal to the embedded string type. -/
def strOf (s : String) : Str := s.data

/-- Lower-case a character (JS `toLowerCase` restricted to ASCII). -/
def lowChar (c : Char) : Char := c.toLower

/-- Lower-case a string, character by character. -/
def lowerStr (s : Str) : Str := s.map lowChar

/-- Whitespace characters recognised by JS `trim` (ASCII subset). -/
def isWs (c : Char) : Bool :=
  c = ' ' || c = '\t' || c = '\n' || c = '\r' || c = '\x0b' || c = '\x0c'

/-- JS `String.prototype.trim`: strip whitespace from both ends. -/
def trimStr (s : Str) : Str :=
  ((s.dropWhile isWs).reverse.dropWhile isWs).reverse

/-- Does `p` occur at the head of `s`? (own definition, used for all
pattern anchoring in the model). -/
def startsList : Str → Str → Bool
  | [], _ => true
  | _ :: _, [] => false
  | p :: ps, c :: cs => p = c && startsList ps cs

/-- Index of the first occurrence of `pat` in `s` at or after offset `i`. -/
def findSubAux (pat : Str) : Str → Nat → Option Nat
  | [], _ => none
  | c :: cs, i =>
    if startsList pat (c :: cs) then some i else findSubAux pat cs (i + 1)

/-- JS `String.prototype.indexOf` for a non-empty pattern; for the empty
pattern JS returns 0, which we mirror. -/
def findSub (s pat : Str) : Option Nat :=
  if pat = [] then some 0 else findSubAux pat s 0

/-- JS `String.prototype.replace` with a plain string pattern and empty
replacement: removes the first occurrence only. -/
def replaceFirst (s pat : Str) : Str :=
  match findSub s pat with
  | none => s
  | some i => s.take i ++ s.drop (i + pat.length)

/-- Split a string on a separator character (JS `split`). The result is
always non-empty. -/
def splitOnChar (sep : Char) : Str → List Str
  | [] => [[]]
  | c :: cs =>
    let r := splitOnChar sep cs
    if c = sep then [] :: r
    else
      match r with
      | [] => [[c]]
      | h :: t => (c :: h) :: t

/-- Join strings with `.` between them (JS `Array.prototype.join('.')`). -/
def joinDots : List Str → Str
  | [] => []
  | [x] => x
  | x :: xs => x ++ '.' :: joinDots xs

/-- Last `n = 2` elements of a list (JS `Array.prototype.slice(-2)`). -/
def lastTwo (l : List Str) : List Str := l.drop (l.length - 2)

/-- Decimal digit test. -/
def isDigitCh (c : Char) : Bool := '0' ≤ c && c ≤ '9'

/-- Numeric value of a digit string (used for URL port parsing). -/
def digitsVal (s : Str) : Nat :=
  s.foldl (fun a c => a * 10 + (c.toNat - '0'.toNat)) 0

/-- Render a natural number in decimal (for `URL.host`'s canonical port). -/
def natToDigits (n : Nat) : Str := (Nat.toDigits 10 n)

/-- Contiguous-substring test, as a computable Bool. -/
def containsSub (s pat : Str) : Bool :=
  (findSub s pat).isSome

/- ===================== URL parsing (WHATWG `new URL`) =====================

The sources call `new URL(...)` and read `.host` and `.pathname`, and Node's
`path.extname` on the pathname.  We model the fragment of WHATWG URL
parsing exercised by http/https URLs with ASCII hosts: scheme, optional
userinfo (up to the last `@`), hostname, optional decimal port with
default-port elision (80/443), and the path up to `?` or `#` (backslashes
act as path separators for special schemes).  Percent-encoding, punycode,
IPv6 hosts and forbidden-host-character validation are outside the model's
scope; a parse failure (`none`) models `new URL` throwing. -/

/-- Characters that terminate the authority component. -/
def isAuthTerm (c : Char) : Bool :=
  c = '/' || c = '\\' || c = '?' || c = '#'

/-- Strip a leading `https://` or `http://` (input assumed lower-cased when
it comes from the bot, which lower-cases before parsing).  Returns the
scheme (`true` = https) and the remainder. -/
def schemeSplit (s : Str) : Option (Bool × Str) :=
  if startsList (strOf "https://") s then some (true, s.drop 8)
  else if startsList (strOf "http://") s then some (false, s.drop 7)
  else none

/-- The authority chunk: everything up to the first `/`, `\`, `?` or `#`. -/
def authChunk (rest : Str) : Str :=
  rest.takeWhile (fun c => ¬ isAuthTerm c)

/-- Drop credentials: the host-port part is what follows the last `@`. -/
def afterLastAt (a : Str) : Str :=
  (splitOnChar '@' a).getLastD a

/-- Everything before the first `:` (the hostname of a host-port pair). -/
def beforeFirstColon : Str → Str
  | [] => []
  | c :: cs => if c = ':' then [] else c :: beforeFirstColon cs

/-- The part after the first `:`, if any. -/
def colonTail : Str → Option Str
  | [] => none
  | c :: cs => if c = ':' then some cs else colonTail cs

/-- Scheme default port, elided by WHATWG `URL.host`. -/
def defaultPort (https : Bool) : Nat := if https then 443 else 80

/-- Parse the host-port pair of an http(s) URL.  Empty hostname, an invalid
or out-of-range port make `new URL` throw (`none`).  An empty port or the
scheme's default port is elided. -/
def parseHostPort (https : Bool) (hp : Str) : Option (Str × Option Nat) :=
  if beforeFirstColon hp = [] then none
  else
    match colonTail hp with
    | none => some (beforeFirstColon hp, none)
    | some p =>
      if p = [] then some (beforeFirstColon hp, none)
      else if p.all isDigitCh then
        if 65535 < digitsVal p then none
        else if digitsVal p = defaultPort https then
          some (beforeFirstColon hp, none)
        else some (beforeFirstColon hp, some (digitsVal p))
      else none

/-- The pathname given the text following the authority chunk: `/`-rooted,
cut at `?` or `#`, with backslashes normalised to slashes; absent path
becomes `/`. -/
def pathFromTail (tail : Str) : Str :=
  let raw := (tail.takeWhile (fun c => c ≠ '?' ∧ c ≠ '#')).map
      (fun c => if c = '\\' then '/' else c)
  if raw = [] then ['/'] else raw

/-- Result of `new URL` restricted to the fields the bot reads. -/
structure URLRec where
  https : Bool
  hostname : Str
  port : Option Nat
  pathname : Str
  deriving DecidableEq

/-- The modelled `new URL(s)`. -/
def parseURL (s : Str) : Option URLRec :=
  match schemeSplit s with
  | none => none
  | some (sch, rest) =>
    let auth := authChunk rest
    let hp := afterLastAt auth
    match parseHostPort sch hp with
    | none => none
    | some (h, p) => some ⟨sch, h, p, pathFromTail (rest.drop auth.length)⟩

/-- WHATWG `URL.host`: hostname plus `:port` when a non-default port is
present (canonical decimal rendering). -/
def hostOf (u : URLRec) : Str :=
  u.hostname ++ (match u.port with
    | none => []
    | some v => ':' :: natToDigits v)

/-- Node `path.extname`: the extension of the final path segment, `''` when
the segment has no dot, is dot-led with no further dot, or is `..`. -/
def extname (p : Str) : Str :=
  let base := (splitOnChar '/' p).getLast!
  match (List.range base.length).filter
      (fun i => base.getD i ' ' = '.') |>.getLast? with
  | none => []
  | some i =>
    if i = 0 then []
    else if base = strOf ".." then []
    else base.drop i

/-- A classified candidate link (spec's `CandidateLink`), as computed by
the multi-link handler: lower-case the raw link, `new URL`, `host`,
`rootDomain` from the last two dot-separated labels of `host`, and the
lower-cased `path.extname` of the pathname. -/
structure Candidate where
  rawText : Str
  host : Str
  rootDomain : Str
  extension : Str
  deriving DecidableEq

/-- Classification of a raw link, following `bot.js` lines 295-306. -/
def classifyLink (link : Str) : Option Candidate :=
  match parseURL (lowerStr link) with
  | none => none
  | some u =>
    let host := hostOf u
    let rootDomain := joinDots (lastTwo (splitOnChar '.' host))
    let ext := lowerStr (extname u.pathname)
    some ⟨link, host, rootDomain, ext⟩

/-- Modelled from the spec: the URL's authority with credentials and port
both removed (the spec's `host`). -/
def specHostNoPort (link : Str) : Option Str :=
  match schemeSplit (lowerStr link) with
  | none => none
  | some (_, rest) => some (beforeFirstColon (afterLastAt (authChunk rest)))

/-- Modelled from the spec: the URL's path (used by the spec's `extension`
clause). -/
def specPathOf (link : Str) : Option Str :=
  match schemeSplit (lowerStr link) with
  | none => none
  | some (_, rest) =>
    some (pathFromTail (rest.drop (authChunk rest).length))

/- ===================== Link scanners ===================== -/

/-- Length of a match of `/(https?:\/\/[^\s]+)/i` anchored at the head of
`s`: the scheme (case-insensitive) followed by at least one non-whitespace
character, greedily extended. -/
def urlMatchAt (s : Str) : Option Nat :=
  match schemeSplit (lowerStr s) with
  | none => none
  | some (sch, _) =>
    let k := if sch then 8 else 7
    let run := (s.drop k).takeWhile (fun c => ¬ isWs c)
    if run = [] then none else some (k + run.length)

/-- One pass of the global regex scan: all matches of the URL pattern in
left-to-right order, non-overlapping (JS `String.prototype.match` with the
`g` flag).  Fuel-driven so that the definition computes; the fuel is the
string length, which suffices because every step consumes a character. -/
def urlScanAux : Nat → Str → List Str
  | 0, _ => []
  | _ + 1, [] => []
  | fuel + 1, c :: cs =>
    match urlMatchAt (c :: cs) with
    | some n => (c :: cs).take n :: urlScanAux fuel ((c :: cs).drop n)
    | none => urlScanAux fuel cs

/-- All URL matches of a message's content (`bot.js` line 286). -/
def urlScan (s : Str) : List Str := urlScanAux s.length s

/-- Match attempt of `index.js`'s CDN_REGEX at the head of the (lowered)
text: `https?://` then the optional greedy subdomain group `(?:[^\/]+\.)?`,
one of the configured domains, `/`, and a non-empty greedy run of
`[\w\d\/_.-]`.  `dl` holds the (lowered) domain alternation in pattern
order.  Backtracking order: longest subdomain first, then the absent
subdomain, domains in alternation order. -/
def cdnPathChar (c : Char) : Bool :=
  ('a' ≤ c && c ≤ 'z') || ('A' ≤ c && c ≤ 'Z') || isDigitCh c ||
    c = '_' || c = '/' || c = '.' || c = '-'

/-- Try each domain of the alternation at the head of `t`: the domain must
be followed by `/` and a non-empty path run; returns the matched length
from `t`. -/
def cdnDomainAt (dl : List Str) (t : Str) : Option Nat :=
  match dl with
  | [] => none
  | d :: ds =>
    if startsList d t then
      let rest := t.drop d.length
      match rest with
      | '/' :: r =>
        let run := r.takeWhile cdnPathChar
        if run = [] then cdnDomainAt ds t
        else some (d.length + 1 + run.length)
      | _ => cdnDomainAt ds t
    else cdnDomainAt ds t

/-- Backtracking over the subdomain group `(?:[^\/]+\.)?`: the argument is
the candidate index of the group's final dot, tried from the greediest
position downwards; index 0 is impossible (the `[^\/]+` needs a character)
and stands for the group being absent. -/
def cdnSubAt (dl : List Str) (after : Str) : Nat → Option Nat
  | 0 => cdnDomainAt dl after
  | n + 1 =>
    if after.getD (n + 1) ' ' = '.' then
      match cdnDomainAt dl (after.drop (n + 2)) with
      | some m => some (n + 2 + m)
      | none => cdnSubAt dl after n
    else cdnSubAt dl after n

/-- Length of a CDN_REGEX match anchored at the head of the lowered text. -/
def cdnTryAt (dl : List Str) (low : Str) : Option Nat :=
  match schemeSplit low with
  | none => none
  | some (sch, rest) =>
    let k := if sch then 8 else 7
    let maxRun := (rest.takeWhile (fun c => c ≠ '/')).length
    (cdnSubAt dl rest (maxRun - 1)).map (fun n => k + n)

/-- Global scan of CDN_REGEX over a message: returns the list of matched
substrings (original casing) and the residual text with every match
removed, which is exactly `content.replace(CDN_REGEX, '')`. -/
def cdnScanAux (dl : List Str) : Nat → Str → List Str × Str
  | 0, orig => ([], orig)
  | _ + 1, [] => ([], [])
  | fuel + 1, c :: cs =>
    match cdnTryAt dl (lowerStr (c :: cs)) with
    | some n =>
      let r := cdnScanAux dl fuel ((c :: cs).drop n)
      ((c :: cs).take n :: r.1, r.2)
    | none =>
      let r := cdnScanAux dl fuel cs
      (r.1, c :: r.2)

/-- CDN_REGEX matches and residual for a message's content. -/
def cdnScan (dl : List Str) (s : Str) : List Str × Str :=
  cdnScanAux dl s.length s

/- ===================== Policy Store (bot.js) =====================

The global config document is a map from guild id to per-guild config.
Each event handler reloads the document from disk (fresh JSON parse, so no
aliasing across events) and `getGuildConfig` materialises missing entries
from `DEFAULT_GUILD_CONFIG` via `{ ...DEFAULT_GUILD_CONFIG }`: a shallow
copy, so the inserted entry's arrays are the very array objects of
`DEFAULT_GUILD_CONFIG`, and a subsequent in-place `push` on them mutates
the process-wide default.  The model therefore threads the default arrays
through the process state. -/

/-- Per-guild policy (the spec's `TenantPolicy`). -/
structure GuildConfig where
  allowedDomains : List Str
  allowedExtensions : List Str
  deriving DecidableEq

/-- The literal `DEFAULT_GUILD_CONFIG.allowedDomains` (bot.js line 63). -/
def defaultDomains : List Str := [strOf "4cdn.org"]

/-- The literal `DEFAULT_GUILD_CONFIG.allowedExtensions` (bot.js 64). -/
def defaultExtensions : List Str :=
  [strOf ".jpg", strOf ".jpeg", strOf ".png", strOf ".gif",
   strOf ".webm", strOf ".mp4"]

/-- The canonical default policy as the spec states it. -/
def defaultConfig : GuildConfig := ⟨defaultDomains, defaultExtensions⟩

/-- The persisted document: an association list keyed by guild id. -/
abbrev PolicyDoc := List (Str × GuildConfig)

/-- Lookup of a guild's entry. -/
def findCfg : PolicyDoc → Str → Option GuildConfig
  | [], _ => none
  | (k, v) :: t, gid => if k = gid then some v else findCfg t gid

/-- Replace a guild's entry (first occurrence of the key). -/
def setCfg : PolicyDoc → Str → GuildConfig → PolicyDoc
  | [], _, _ => []
  | (k, v) :: t, gid, c =>
    if k = gid then (k, c) :: t else (k, v) :: setCfg t gid c

/-- Process state: the on-disk document plus the current contents of the
mutable `DEFAULT_GUILD_CONFIG` arrays. -/
structure ProcState where
  disk : PolicyDoc
  defDomains : List Str
  defExts : List Str
  deriving DecidableEq

/-- Fresh process over an empty document. -/
def initProc : ProcState := ⟨[], defaultDomains, defaultExtensions⟩

/-- Result of `getGuildConfig`: the entry, the (possibly grown) document,
and whether a default entry was freshly inserted (and hence persisted). -/
structure GetCfg where
  cfg : GuildConfig
  doc : PolicyDoc
  fresh : Bool

/-- `getGuildConfig(globalConfig, guildId)` (bot.js lines 99-106): return
the existing entry, or insert `{ ...DEFAULT_GUILD_CONFIG }` and persist.
When fresh, the inserted arrays alias the default arrays. -/
def getGuildConfigM (s : ProcState) (gid : Str) : GetCfg :=
  match findCfg s.disk gid with
  | some c => ⟨c, s.disk, false⟩
  | none => ⟨⟨s.defDomains, s.defExts⟩,
             s.disk ++ [(gid, ⟨s.defDomains, s.defExts⟩)], true⟩

/-- Ephemeral replies of the command handlers, by branch. -/
inductive Reply
  | domainAdded (d : Str) | domainAlready (d : Str)
  | domainRemoved (d : Str) | domainMissing (d : Str)
  | extAdded (e : Str) | extAlready (e : Str)
  | extRemoved (e : Str) | extMissing (e : Str)
  | listed
  deriving DecidableEq

/-- `/allowdomain` (bot.js lines 200-210).  Returns the next process
state, the reply, and the number of `saveGlobalConfig` calls made.  A
`push` on a freshly materialised entry writes through to the process-wide
default arrays (shallow-copy aliasing). -/
def allowdomainCmd (s : ProcState) (gid raw : Str) :
    ProcState × Reply × Nat :=
  let g := getGuildConfigM s gid
  let saves0 := if g.fresh then 1 else 0
  let dom := trimStr (lowerStr raw)
  if dom ∈ g.cfg.allowedDomains then
    (⟨g.doc, s.defDomains, s.defExts⟩, Reply.domainAlready dom, saves0)
  else
    let newD := g.cfg.allowedDomains ++ [dom]
    (⟨setCfg g.doc gid { g.cfg with allowedDomains := newD },
      if g.fresh then newD else s.defDomains, s.defExts⟩,
     Reply.domainAdded dom, saves0 + 1)

/-- `/removedomain` (bot.js lines 211-223).  `filter` builds a fresh array
and reassigns the field, so the default arrays are never affected. -/
def removedomainCmd (s : ProcState) (gid raw : Str) :
    ProcState × Reply × Nat :=
  let g := getGuildConfigM s gid
  let saves0 := if g.fresh then 1 else 0
  let dom := trimStr (lowerStr raw)
  let newD := g.cfg.allowedDomains.filter (fun d => d ≠ dom)
  if newD.length < g.cfg.allowedDomains.length then
    (⟨setCfg g.doc gid { g.cfg with allowedDomains := newD },
      s.defDomains, s.defExts⟩, Reply.domainRemoved dom, saves0 + 1)
  else
    (⟨g.doc, s.defDomains, s.defExts⟩, Reply.domainMissing dom, saves0)

/-- Extension normalisation of `/allowext` and `/removeext`: lower-case,
trim, force a leading dot. -/
def normExt (raw : Str) : Str :=
  let e := trimStr (lowerStr raw)
  if startsList (strOf ".") e then e else '.' :: e

/-- `/allowext` (bot.js lines 231-244), with the same aliasing as
`/allowdomain`. -/
def allowextCmd (s : ProcState) (gid raw : Str) :
    ProcState × Reply × Nat :=
  let g := getGuildConfigM s gid
  let saves0 := if g.fresh then 1 else 0
  let e := normExt raw
  if e ∈ g.cfg.allowedExtensions then
    (⟨g.doc, s.defDomains, s.defExts⟩, Reply.extAlready e, saves0)
  else
    let newE := g.cfg.allowedExtensions ++ [e]
    (⟨setCfg g.doc gid { g.cfg with allowedExtensions := newE },
      s.defDomains, if g.fresh then newE else s.defExts⟩,
     Reply.extAdded e, saves0 + 1)

/-- `/removeext` (bot.js lines 245-260). -/
def removeextCmd (s : ProcState) (gid raw : Str) :
    ProcState × Reply × Nat :=
  let g := getGuildConfigM s gid
  let saves0 := if g.fresh then 1 else 0
  let e := normExt raw
  let newE := g.cfg.allowedExtensions.filter (fun x => x ≠ e)
  if newE.length < g.cfg.allowedExtensions.length then
    (⟨setCfg g.doc gid { g.cfg with allowedExtensions := newE },
      s.defDomains, s.defExts⟩, Reply.extRemoved e, saves0 + 1)
  else
    (⟨g.doc, s.defDomains, s.defExts⟩, Reply.extMissing e, saves0)

/-- Any other entry point that merely calls `getGuildConfig` (the list
commands and the message handler). -/
def touchCmd (s : ProcState) (gid : Str) : ProcState :=
  let g := getGuildConfigM s gid
  ⟨g.doc, s.defDomains, s.defExts⟩

/-- Administrative operations driving the policy store. -/
inductive Op
  | allowdomain (gid raw : Str)
  | removedomain (gid raw : Str)
  | allowext (gid raw : Str)
  | removeext (gid raw : Str)
  | touch (gid : Str)

/-- One operation against the process state. -/
def stepOp (s : ProcState) : Op → ProcState
  | Op.allowdomain gid raw => (allowdomainCmd s gid raw).1
  | Op.removedomain gid raw => (removedomainCmd s gid raw).1
  | Op.allowext gid raw => (allowextCmd s gid raw).1
  | Op.removeext gid raw => (removeextCmd s gid raw).1
  | Op.touch gid => touchCmd s gid

/-- A sequence of operations from the initial state. -/
def runOps (ops : List Op) : ProcState := ops.foldl stepOp initProc

/- ===================== Fetch-and-stage pipeline (bot.js) ===================== -/

/-- The constant `MAX_FILE_SIZE = 10 * 1024 * 1024` (both sources). -/
def MAX_FILE_SIZE : Nat := 10 * 1024 * 1024

/-- Network and file-system environment of one candidate link: the HEAD
probe's success and content-length header, the GET's success, whether the
exclusive-create open and the streamed write succeed, and the size
`fs.statSync` then measures. -/
structure LinkEnv where
  headOk : Bool
  headLen : Option Nat
  fetchOk : Bool
  openOk : Bool
  writeOk : Bool
  bodySize : Nat
  deriving DecidableEq

/-- The `contentLength` the handler computes: 0 when the HEAD failed or
the header is missing (`Number(...) || 0`). -/
def computedLen (e : LinkEnv) : Nat :=
  if e.headOk then e.headLen.getD 0 else 0

/-- One candidate of a pipeline run: its matched text, its environment,
and the temp filename `temp_cdn_${guildId}_${Date.now()}${ext}` the run
would use for it. -/
structure LinkItem where
  text : Str
  env : LinkEnv
  fname : Str
  deriving DecidableEq

/-- Where a candidate's processing ends, one constructor per exit of the
loop body (bot.js lines 293-353): the three `continue`s, the two size
`throw`s, the fetch `throw`, and the two write failure modes. -/
inductive Outcome
  | skippedParse | skippedDomain | skippedExt
  | oversizeHead | fetchFailed | openFailed | writeFailed | oversizeBody
  | staged
  deriving DecidableEq

/-- Outcome of one candidate, following the loop body's control flow. -/
def outcomeOf (cfg : GuildConfig) (it : LinkItem) : Outcome :=
  match classifyLink it.text with
  | none => Outcome.skippedParse
  | some c =>
    if ¬ (c.host ∈ cfg.allowedDomains ∨ c.rootDomain ∈ cfg.allowedDomains)
    then Outcome.skippedDomain
    else if c.extension ∉ cfg.allowedExtensions then Outcome.skippedExt
    else if MAX_FILE_SIZE < computedLen it.env then Outcome.oversizeHead
    else if ¬ it.env.fetchOk then Outcome.fetchFailed
    else if ¬ it.env.openOk then Outcome.openFailed
    else if ¬ it.env.writeOk then Outcome.writeFailed
    else if MAX_FILE_SIZE < it.env.bodySize then Outcome.oversizeBody
    else Outcome.staged

/-- Mutable state of a run: `newContent`, the staged attachment list with
the measured sizes, `filesToDelete`, and the ghost list of files actually
created on disk. -/
structure RunState where
  content : Str
  files : List (Str × Nat)
  toDelete : List Str
  created : List Str
  deriving DecidableEq

/-- Effect of one candidate's outcome on the run state.  `filesToDelete`
gains the temp name as soon as the open is attempted; the file exists on
disk from the moment the exclusive create succeeds; only the fully staged
candidate rewrites the content and joins the attachment list. -/
def applyOutcome (st : RunState) (it : LinkItem) : Outcome → RunState
  | Outcome.staged =>
    ⟨trimStr (replaceFirst st.content it.text),
     st.files ++ [(it.fname, it.env.bodySize)],
     st.toDelete ++ [it.fname], st.created ++ [it.fname]⟩
  | Outcome.oversizeBody =>
    ⟨st.content, st.files, st.toDelete ++ [it.fname], st.created ++ [it.fname]⟩
  | Outcome.writeFailed =>
    ⟨st.content, st.files, st.toDelete ++ [it.fname], st.created ++ [it.fname]⟩
  | Outcome.openFailed =>
    ⟨st.content, st.files, st.toDelete ++ [it.fname], st.created⟩
  | _ => st

/-- One iteration of the link loop. -/
def processLink (cfg : GuildConfig) (st : RunState) (it : LinkItem) :
    RunState :=
  applyOutcome st it (outcomeOf cfg it)

/-- The whole loop, sequentially in scan order. -/
def runLinks (cfg : GuildConfig) (st : RunState) (items : List LinkItem) :
    RunState :=
  items.foldl (processLink cfg) st

/-- Observable effects of a message handler run. -/
inductive Effect
  | loadConfig
  | saveConfig
  | headReq (url : Str)
  | getReq (url : Str)
  | createFile (name : Str)
  | deleteMessage
  | webhookSend (content : Str) (files : List Str)
  | unlink (name : Str)
  deriving DecidableEq

/-- Network and file effects of one candidate, by outcome. -/
def linkEffects (cfg : GuildConfig) (it : LinkItem) : List Effect :=
  match outcomeOf cfg it with
  | Outcome.skippedParse => []
  | Outcome.skippedDomain => []
  | Outcome.skippedExt => []
  | Outcome.oversizeHead => [Effect.headReq it.text]
  | Outcome.fetchFailed => [Effect.headReq it.text, Effect.getReq it.text]
  | Outcome.openFailed => [Effect.headReq it.text, Effect.getReq it.text]
  | _ => [Effect.headReq it.text, Effect.getReq it.text,
          Effect.createFile it.fname]

/-- Message metadata the guard reads. -/
structure MessageMeta where
  inGuild : Bool
  authorBot : Bool
  content : Str
  deriving DecidableEq

/-- Result of a `messageCreate` run of the multi-link handler. -/
structure MsgResult where
  effects : List Effect
  staged : List (Str × Nat)
  created : List Str
  deriving DecidableEq

/-- Pair the scanned links with their environments and temp names. -/
def zipItems (links : List Str) (envs : List (LinkEnv × Str)) :
    List LinkItem :=
  List.zipWith (fun l (p : LinkEnv × Str) => ⟨l, p.1, p.2⟩) links envs

/-- The multi-link `messageCreate` handler (bot.js lines 276-379): guard,
config load (with possible default materialisation), URL scan with early
return when no link is found, the sequential link loop, then message
delete and webhook repost — unconditionally, whatever was staged — and
the `finally` cleanup of every `filesToDelete` entry.  `webhookOk` is
whether `getOrCreateChannelWebhook` succeeds; a false value skips only
the send, never the cleanup. -/
def handleMessage (s : ProcState) (gid : Str) (msg : MessageMeta)
    (envs : List (LinkEnv × Str)) (webhookOk : Bool) : MsgResult :=
  if ¬ msg.inGuild ∨ msg.authorBot then ⟨[], [], []⟩
  else
    let g := getGuildConfigM s gid
    let loadEffs := [Effect.loadConfig] ++
      (if g.fresh then [Effect.saveConfig] else [])
    let links := urlScan msg.content
    if links = [] then ⟨loadEffs, [], []⟩
    else
      let items := zipItems links envs
      let st := runLinks g.cfg ⟨msg.content, [], [], []⟩ items
      let linkEffs := (items.map (linkEffects g.cfg)).flatten
      let repub := [Effect.deleteMessage] ++
        (if webhookOk
         then [Effect.webhookSend st.content (st.files.map (fun f => f.1))]
         else [])
      let clean := st.toDelete.map Effect.unlink
      ⟨loadEffs ++ linkEffs ++ repub ++ clean, st.files, st.created⟩

/- ===================== Single-link handler (index.js) ===================== -/

/-- Environment of a single-link run: one candidate's network/file oracle,
whether the webhook lookup succeeds, the other `temp_cdn_*`-matching files
the glob sweep would see in the working directory, and the `Date.now()`
token used in the temp name. -/
structure SingleEnv where
  link : LinkEnv
  webhookOk : Bool
  cwdTemp : List Str
  ts : Str
  deriving DecidableEq

/-- Result of a single-link run. -/
structure SingleResult where
  effects : List Effect
  created : List Str
  deriving DecidableEq

/-- The `finally` cleanup of index.js (lines 132-143): `glob.sync` over
`temp_cdn_*` then unlink each hit, deletion errors logged and swallowed. -/
def globCleanup (cwd created : List Str) : List Effect :=
  ((cwd ++ created).filter (fun f => startsList (strOf "temp_cdn_") f)).map
    Effect.unlink

/-- The single-link `messageCreate` handler (index.js lines 65-144): guard
and CDN_REGEX scan inside the `try`, only `matches[0]` processed, any
failure thrown to the outer catch, and the glob sweep running in
`finally` on every path.  `dl` is the lower-cased CDN domain list. -/
def singleHandle (dl : List Str) (msg : MessageMeta) (e : SingleEnv) :
    SingleResult :=
  if ¬ msg.inGuild ∨ msg.authorBot then ⟨globCleanup e.cwdTemp [], []⟩
  else
    let scan := cdnScan dl msg.content
    match scan.1 with
    | [] => ⟨globCleanup e.cwdTemp [], []⟩
    | link :: _ =>
      let effs0 := [Effect.headReq link]
      if MAX_FILE_SIZE < computedLen e.link then
        ⟨effs0 ++ globCleanup e.cwdTemp [], []⟩
      else
        let effs1 := effs0 ++ [Effect.getReq link]
        if ¬ e.link.fetchOk then ⟨effs1 ++ globCleanup e.cwdTemp [], []⟩
        else
          match parseURL link with
          | none => ⟨effs1 ++ globCleanup e.cwdTemp [], []⟩
          | some u =>
            let fname := strOf "temp_cdn_" ++ e.ts ++ extname u.pathname
            if ¬ e.link.openOk then
              ⟨effs1 ++ globCleanup e.cwdTemp [], []⟩
            else
              let effs2 := effs1 ++ [Effect.createFile fname]
              let cr := [fname]
              if ¬ e.link.writeOk then
                ⟨effs2 ++ globCleanup e.cwdTemp cr, cr⟩
              else if MAX_FILE_SIZE < e.link.bodySize then
                ⟨effs2 ++ globCleanup e.cwdTemp cr, cr⟩
              else
                let newContent := trimStr scan.2
                let effs3 := effs2 ++ [Effect.deleteMessage]
                if ¬ e.webhookOk then
                  ⟨effs3 ++ globCleanup e.cwdTemp cr, cr⟩
                else
                  ⟨effs3 ++ [Effect.webhookSend newContent [fname]] ++
                     globCleanup e.cwdTemp cr, cr⟩

/- ===================== Helper lemmas ===================== -/

theorem startsList_same (p r : Str) : startsList p (p ++ r) = true := by
  induction p with
  | nil => rfl
  | cons c cs ih => simp [startsList, ih]

theorem beforeFirstColon_no_colon {s : Str} {c : Char} :
    c ∈ beforeFirstColon s → ¬ c = ':' := by
  induction s with
  | nil => intro h; simp [beforeFirstColon] at h
  | cons a as ih =>
    by_cases ha : a = ':'
    · simp [beforeFirstColon, ha]
    · intro h
      rcases List.mem_cons.mp (by simpa [beforeFirstColon, ha] using h) with
        h | h
      · subst h; exact ha
      · exact ih h

theorem beforeFirstColon_of_no_colon {h : Str} (hh : ∀ c ∈ h, ¬ c = ':') :
    beforeFirstColon h = h := by
  induction h with
  | nil => rfl
  | cons a as ih =>
    have ha : ¬ a = ':' := hh a (List.mem_cons_self a as)
    simp only [beforeFirstColon, if_neg ha]
    exact congrArg (List.cons a)
      (ih (fun c hc => hh c (List.mem_cons_of_mem a hc)))

theorem beforeFirstColon_append {h r : Str} (hh : ∀ c ∈ h, ¬ c = ':') :
    beforeFirstColon (h ++ ':' :: r) = h := by
  induction h with
  | nil => simp [beforeFirstColon]
  | cons a as ih =>
    have ha : ¬ a = ':' := hh a (List.mem_cons_self a as)
    simp only [List.cons_append, beforeFirstColon, if_neg ha]
    exact congrArg (List.cons a)
      (ih (fun c hc => hh c (List.mem_cons_of_mem a hc)))

theorem parseHostPort_someColon {sch : Bool} {hp q : Str}
    (h0 : ¬ beforeFirstColon hp = []) (hct : colonTail hp = some q) :
    parseHostPort sch hp =
      (if q = [] then some (beforeFirstColon hp, none)
       else if q.all isDigitCh then
         if 65535 < digitsVal q then none
         else if digitsVal q = defaultPort sch then
           some (beforeFirstColon hp, none)
         else some (beforeFirstColon hp, some (digitsVal q))
       else none) := by
  unfold parseHostPort
  rw [if_neg h0, hct]

theorem parseHostPort_fst {sch : Bool} {hp h : Str} {p : Option Nat}
    (hh : parseHostPort sch hp = some (h, p)) : h = beforeFirstColon hp := by
  by_cases h0 : beforeFirstColon hp = []
  · unfold parseHostPort at hh
    rw [if_pos h0] at hh
    cases hh
  · cases hct : colonTail hp with
    | none =>
      unfold parseHostPort at hh
      rw [if_neg h0, hct] at hh
      cases hh
      rfl
    | some q =>
      rw [parseHostPort_someColon h0 hct] at hh
      by_cases hq : q = []
      · rw [if_pos hq] at hh; cases hh; rfl
      · rw [if_neg hq] at hh
        by_cases hd : q.all isDigitCh = true
        · rw [if_pos hd] at hh
          by_cases hv : 65535 < digitsVal q
          · rw [if_pos hv] at hh; cases hh
          · rw [if_neg hv] at hh
            by_cases hdef : digitsVal q = defaultPort sch
            · rw [if_pos hdef] at hh; cases hh; rfl
            · rw [if_neg hdef] at hh; cases hh; rfl
        · rw [if_neg hd] at hh; cases hh

theorem parseURL_inv {s : Str} {u : URLRec} (h : parseURL s = some u) :
    ∃ sch rest, schemeSplit s = some (sch, rest) ∧
      parseHostPort sch (afterLastAt (authChunk rest)) =
        some (u.hostname, u.port) ∧
      u.pathname = pathFromTail (rest.drop (authChunk rest).length) := by
  unfold parseURL at h
  cases hs : schemeSplit s with
  | none => rw [hs] at h; cases h
  | some pr =>
    rw [hs] at h
    cases hpp : parseHostPort pr.1 (afterLastAt (authChunk pr.2)) with
    | none =>
      simp only [hpp] at h
      exact Option.noConfusion h
    | some q =>
      simp only [hpp] at h
      cases h
      exact ⟨pr.1, pr.2, rfl, hpp, rfl⟩

theorem outcomeOf_none {cfg : GuildConfig} {it : LinkItem}
    (hc : classifyLink it.text = none) :
    outcomeOf cfg it = Outcome.skippedParse := by
  unfold outcomeOf
  rw [hc]

theorem outcomeOf_some {cfg : GuildConfig} {it : LinkItem} {c : Candidate}
    (hc : classifyLink it.text = some c) :
    outcomeOf cfg it =
      (if ¬ (c.host ∈ cfg.allowedDomains ∨ c.rootDomain ∈ cfg.allowedDomains)
       then Outcome.skippedDomain
       else if c.extension ∉ cfg.allowedExtensions then Outcome.skippedExt
       else if MAX_FILE_SIZE < computedLen it.env then Outcome.oversizeHead
       else if ¬ it.env.fetchOk then Outcome.fetchFailed
       else if ¬ it.env.openOk then Outcome.openFailed
       else if ¬ it.env.writeOk then Outcome.writeFailed
       else if MAX_FILE_SIZE < it.env.bodySize then Outcome.oversizeBody
       else Outcome.staged) := by
  unfold outcomeOf
  rw [hc]

theorem outcomeOf_staged_size {cfg : GuildConfig} {it : LinkItem}
    (h : outcomeOf cfg it = Outcome.staged) :
    it.env.bodySize ≤ MAX_FILE_SIZE := by
  cases hc : classifyLink it.text with
  | none => rw [outcomeOf_none hc] at h; cases h
  | some c =>
    rw [outcomeOf_some hc] at h
    by_cases h1 :
        ¬ (c.host ∈ cfg.allowedDomains ∨ c.rootDomain ∈ cfg.allowedDomains)
    · rw [if_pos h1] at h; cases h
    · rw [if_neg h1] at h
      by_cases h2 : c.extension ∉ cfg.allowedExtensions
      · rw [if_pos h2] at h; cases h
      · rw [if_neg h2] at h
        by_cases h3 : MAX_FILE_SIZE < computedLen it.env
        · rw [if_pos h3] at h; cases h
        · rw [if_neg h3] at h
          by_cases h4 : ¬ it.env.fetchOk = true
          · rw [if_pos h4] at h; cases h
          · rw [if_neg h4] at h
            by_cases h5 : ¬ it.env.openOk = true
            · rw [if_pos h5] at h; cases h
            · rw [if_neg h5] at h
              by_cases h6 : ¬ it.env.writeOk = true
              · rw [if_pos h6] at h; cases h
              · rw [if_neg h6] at h
                by_cases h7 : MAX_FILE_SIZE < it.env.bodySize
                · rw [if_pos h7] at h; cases h
                · exact Nat.le_of_not_lt h7

theorem outcomeOf_big {cfg : GuildConfig} {it : LinkItem}
    (h : MAX_FILE_SIZE < computedLen it.env) :
    outcomeOf cfg it = Outcome.skippedParse ∨
    outcomeOf cfg it = Outcome.skippedDomain ∨
    outcomeOf cfg it = Outcome.skippedExt ∨
    outcomeOf cfg it = Outcome.oversizeHead := by
  cases hc : classifyLink it.text with
  | none => exact Or.inl (outcomeOf_none hc)
  | some c =>
    rw [outcomeOf_some hc]
    by_cases h1 :
        ¬ (c.host ∈ cfg.allowedDomains ∨ c.rootDomain ∈ cfg.allowedDomains)
    · rw [if_pos h1]; exact Or.inr (Or.inl rfl)
    · rw [if_neg h1]
      by_cases h2 : c.extension ∉ cfg.allowedExtensions
      · rw [if_pos h2]; exact Or.inr (Or.inr (Or.inl rfl))
      · rw [if_neg h2, if_pos h]
        exact Or.inr (Or.inr (Or.inr rfl))

theorem runLinks_cons (cfg : GuildConfig) (st : RunState) (it : LinkItem)
    (rest : List LinkItem) :
    runLinks cfg st (it :: rest) = runLinks cfg (processLink cfg st it) rest :=
  rfl

theorem runLinks_ghost (cfg : GuildConfig) (items : List LinkItem) :
    ∀ c f d1 g1 d2 g2,
      (runLinks cfg ⟨c, f, d1, g1⟩ items).content =
        (runLinks cfg ⟨c, f, d2, g2⟩ items).content ∧
      (runLinks cfg ⟨c, f, d1, g1⟩ items).files =
        (runLinks cfg ⟨c, f, d2, g2⟩ items).files := by
  induction items with
  | nil => intro c f d1 g1 d2 g2; exact ⟨rfl, rfl⟩
  | cons it rest ih =>
    intro c f d1 g1 d2 g2
    rw [runLinks_cons, runLinks_cons]
    unfold processLink
    cases outcomeOf cfg it <;> simp only [applyOutcome] <;> exact ih ..

theorem runLinks_skip {cfg : GuildConfig} (st : RunState) (it : LinkItem)
    (rest : List LinkItem) (h : outcomeOf cfg it ≠ Outcome.staged) :
    (runLinks cfg st (it :: rest)).files = (runLinks cfg st rest).files ∧
    (runLinks cfg st (it :: rest)).content =
      (runLinks cfg st rest).content := by
  obtain ⟨c, f, d, g⟩ := st
  rw [runLinks_cons]
  unfold processLink
  cases ho : outcomeOf cfg it
  case staged => exact absurd ho h
  all_goals
    simp only [applyOutcome]
    first
      | trivial
      | exact ⟨(runLinks_ghost cfg rest c f _ _ _ _).2,
               (runLinks_ghost cfg rest c f _ _ _ _).1⟩

theorem runLinks_files_le (cfg : GuildConfig) (items : List LinkItem) :
    ∀ st : RunState, (∀ a ∈ st.files, a.2 ≤ MAX_FILE_SIZE) →
      ∀ a ∈ (runLinks cfg st items).files, a.2 ≤ MAX_FILE_SIZE := by
  induction items with
  | nil => intro st h; simpa [runLinks] using h
  | cons it rest ih =>
    intro st h
    refine fun a ha => ih (processLink cfg st it) ?_ a ha
    unfold processLink
    cases ho : outcomeOf cfg it <;> simp only [applyOutcome] <;>
      first
        | exact h
        | (intro b hb
           rcases List.mem_append.mp hb with hb | hb
           · exact h b hb
           · simp only [List.mem_singleton] at hb
             subst hb
             exact outcomeOf_staged_size ho)

theorem runLinks_created_sub (cfg : GuildConfig) (items : List LinkItem) :
    ∀ st : RunState, (∀ x ∈ st.created, x ∈ st.toDelete) →
      ∀ x ∈ (runLinks cfg st items).created,
        x ∈ (runLinks cfg st items).toDelete := by
  induction items with
  | nil => intro st h; simpa [runLinks] using h
  | cons it rest ih =>
    intro st h
    refine ih (processLink cfg st it) ?_
    unfold processLink
    cases ho : outcomeOf cfg it <;> simp only [applyOutcome] <;>
      first
        | exact h
        | (intro x hx
           rcases List.mem_append.mp hx with hx | hx
           · exact List.mem_append.mpr (Or.inl (h x hx))
           · exact List.mem_append.mpr (Or.inr hx))
        | (intro x hx
           exact List.mem_append.mpr (Or.inl (h x hx)))

theorem filter_ne_of_not_mem {l : List Str} {d : Str} (h : d ∉ l) :
    l.filter (fun x => x ≠ d) = l :=
  List.filter_eq_self.mpr (fun a ha => by
    simp only [ne_eq, decide_not, Bool.not_eq_eq_eq_not, Bool.not_true,
      decide_eq_false_iff_not]
    intro he
    exact h (he ▸ ha))

theorem dropWhile_keeps {t : Str} (ht : t ≠ [])
    (hw : ∀ c ∈ t, isWs c = false) :
    ∀ u v : Str, ∃ u', (u ++ t ++ v).dropWhile isWs = u' ++ t ++ v := by
  intro u v
  induction u with
  | nil =>
    cases t with
    | nil => exact absurd rfl ht
    | cons c cs =>
      refine ⟨[], ?_⟩
      have hc : isWs c = false := hw c (List.mem_cons_self c cs)
      simp [List.dropWhile_cons, hc]
  | cons a as ih =>
    by_cases ha : isWs a = true
    · obtain ⟨u', hu⟩ := ih
      exact ⟨u', by simpa [List.dropWhile_cons, ha] using hu⟩
    · exact ⟨a :: as, by simp [List.dropWhile_cons, ha]⟩

theorem sub_trimStr {t : Str} (ht : t ≠ [])
    (hw : ∀ c ∈ t, isWs c = false) :
    ∀ u v : Str, ∃ u' v', trimStr (u ++ t ++ v) = u' ++ t ++ v' := by
  intro u v
  obtain ⟨u1, h1⟩ := dropWhile_keeps ht hw u v
  have htr : t.reverse ≠ [] := by simpa using ht
  have hwr : ∀ c ∈ t.reverse, isWs c = false := fun c hc =>
    hw c (List.mem_reverse.mp hc)
  obtain ⟨v1, h2⟩ := dropWhile_keeps htr hwr v.reverse u1.reverse
  refine ⟨u1, v1.reverse, ?_⟩
  unfold trimStr
  rw [h1]
  have hrev : (u1 ++ t ++ v).reverse = v.reverse ++ t.reverse ++ u1.reverse := by
    simp [List.reverse_append, List.append_assoc]
  rw [hrev, h2]
  simp [List.reverse_append, List.append_assoc]

theorem replaceFirst_split {x pat z : Str}
    (hfind : findSub (x ++ pat ++ z) pat = some x.length) :
    replaceFirst (x ++ pat ++ z) pat = x ++ z := by
  have ht : (x ++ pat ++ z).take x.length = x := by
    rw [List.append_assoc]
    exact List.take_left x (pat ++ z)
  have hd : (x ++ pat ++ z).drop (x.length + pat.length) = z := by
    have hl : (x ++ pat).length = x.length + pat.length := List.length_append x pat
    rw [← hl]
    exact List.drop_left (x ++ pat) z
  unfold replaceFirst
  rw [hfind]
  show (x ++ pat ++ z).take x.length ++
      (x ++ pat ++ z).drop (x.length + pat.length) = x ++ z
  rw [ht, hd]

/- ===================== Concrete fixtures ===================== -/

/-- A benign per-link environment: probe reports 100 bytes, all steps
succeed, 100 bytes on disk. -/
def envFix : LinkEnv := ⟨true, some 100, true, true, true, 100⟩

/-- A guild id used by the concrete runs. -/
def gidG : Str := strOf "g"

/-- A process state whose document already has the default entry for
`gidG` (so `getGuildConfig` performs no fresh insert). -/
def procWithG : ProcState :=
  ⟨[(gidG, defaultConfig)], defaultDomains, defaultExtensions⟩

/-- A benign single-link environment with one stale temp file in the
working directory. -/
def sEnvFix : SingleEnv := ⟨envFix, true, [strOf "temp_cdn_zz.png"], strOf "111"⟩

/- ===================== Claims ===================== -/

/-- C1: the claim states that a run staging zero assets leaves the
original message untouched (no delete, no repost).  The multi-link
handler has no `newFiles.length` guard: evaluated on a guild message
whose only URL has a disallowed domain, the run stages nothing, performs
no fetch, yet still deletes the original message and reposts its content
through the webhook.  This refutes the claim on the code. -/
theorem c1_zero_staged_still_reposts :
    handleMessage procWithG gidG
        ⟨true, false, strOf "hi https://example.com/a.jpg"⟩
        [(envFix, strOf "/temp/f1.jpg")] true =
      ⟨[Effect.loadConfig, Effect.deleteMessage,
        Effect.webhookSend (strOf "hi https://example.com/a.jpg") []],
       [], []⟩ := by
  decide

/-- C2: the claim states that `getGuildConfig` for an absent tenant
inserts exactly the default policy.  Because `{ ...DEFAULT_GUILD_CONFIG }`
is a shallow copy, the `push` of `/allowdomain` on a freshly materialised
entry mutates the shared default array: after `/allowdomain evil.com` in
fresh guild `g1`, a `getGuildConfig` for fresh guild `g2` inserts
`allowedDomains = [4cdn.org, evil.com]`, not the default.  This refutes
the claim on the code. -/
theorem c2_default_policy_polluted :
    findCfg (runOps [Op.allowdomain (strOf "g1") (strOf "evil.com"),
        Op.touch (strOf "g2")]).disk (strOf "g2") =
      some ⟨[strOf "4cdn.org", strOf "evil.com"], defaultExtensions⟩ ∧
    ¬ findCfg (runOps [Op.allowdomain (strOf "g1") (strOf "evil.com"),
        Op.touch (strOf "g2")]).disk (strOf "g2") = some defaultConfig := by
  decide

/-- C3 counterexample: the claim says `host` is the URL's authority with
credentials and port removed; the code reads WHATWG `URL.host`, which
keeps a non-default port, so on `https://i.4cdn.org:8080/a.jpg` the code's
host is `i.4cdn.org:8080` while the spec's is `i.4cdn.org`. -/
theorem c3_port_not_removed :
    (classifyLink (strOf "https://i.4cdn.org:8080/a.jpg")).map
        Candidate.host = some (strOf "i.4cdn.org:8080") ∧
    specHostNoPort (strOf "https://i.4cdn.org:8080/a.jpg") =
      some (strOf "i.4cdn.org") ∧
    ¬ (classifyLink (strOf "https://i.4cdn.org:8080/a.jpg")).map
        Candidate.host =
      specHostNoPort (strOf "https://i.4cdn.org:8080/a.jpg") := by
  decide

/-- C3 (amended): for every candidate URL the code classifies, `host` is
the URL's authority with credentials removed but the port retained (the
spec's credential-free, port-free host is exactly the code's host up to
its first colon); `rootDomain` is the last two dot-separated labels of
`host`; and `extension` is the lower-cased file extension of the URL
path, empty when the path has none. -/
theorem c3_classification_amended (link : Str) (c : Candidate)
    (h : classifyLink link = some c) :
    specHostNoPort link = some (beforeFirstColon c.host) ∧
    c.rootDomain = joinDots (lastTwo (splitOnChar '.' c.host)) ∧
    ∃ p, specPathOf link = some p ∧ c.extension = lowerStr (extname p) := by
  unfold classifyLink at h
  cases hu : parseURL (lowerStr link) with
  | none => rw [hu] at h; cases h
  | some u =>
    rw [hu] at h
    cases h
    obtain ⟨sch, rest, hs, hpp, hpath⟩ := parseURL_inv hu
    have h1 : u.hostname = beforeFirstColon (afterLastAt (authChunk rest)) :=
      parseHostPort_fst hpp
    have hnc : ∀ ch ∈ u.hostname, ¬ ch = ':' := by
      rw [h1]; intro ch hch; exact beforeFirstColon_no_colon hch
    have h2 : beforeFirstColon (hostOf u) = u.hostname := by
      unfold hostOf
      cases hport : u.port with
      | none => simpa using beforeFirstColon_of_no_colon hnc
      | some v => exact beforeFirstColon_append hnc
    refine ⟨?_, rfl, u.pathname, ?_, rfl⟩
    · unfold specHostNoPort
      rw [hs]
      show some (beforeFirstColon (afterLastAt (authChunk rest))) =
        some (beforeFirstColon (hostOf u))
      rw [h2, h1]
    · unfold specPathOf
      rw [hs]
      show some (pathFromTail (rest.drop (authChunk rest).length)) =
        some u.pathname
      rw [hpath]

/-- C3 amended witness: the first two amended clauses instantiated at the
counterexample URL itself. -/
theorem c3_amended_witness :
    specHostNoPort (strOf "https://i.4cdn.org:8080/a.jpg") =
      some (beforeFirstColon (strOf "i.4cdn.org:8080")) ∧
    strOf "4cdn.org:8080" =
      joinDots (lastTwo (splitOnChar '.' (strOf "i.4cdn.org:8080"))) :=
  ⟨(c3_classification_amended (strOf "https://i.4cdn.org:8080/a.jpg")
      ⟨strOf "https://i.4cdn.org:8080/a.jpg", strOf "i.4cdn.org:8080",
       strOf "4cdn.org:8080", strOf ".jpg"⟩ (by decide)).1,
   (c3_classification_amended (strOf "https://i.4cdn.org:8080/a.jpg")
      ⟨strOf "https://i.4cdn.org:8080/a.jpg", strOf "i.4cdn.org:8080",
       strOf "4cdn.org:8080", strOf ".jpg"⟩ (by decide)).2.1⟩

/-- C6: no-op policy mutations on an existing tenant entry are reported
and persisted correctly: adding an already-present domain changes nothing,
answers the already-allowed reply and performs zero saves; removing an
absent domain changes nothing, answers the not-in-list reply and performs
zero saves. -/
theorem c6_noop_mutations (s : ProcState) (gid raw : Str)
    (cfg : GuildConfig) (h : findCfg s.disk gid = some cfg) :
    (trimStr (lowerStr raw) ∈ cfg.allowedDomains →
      allowdomainCmd s gid raw =
        (s, Reply.domainAlready (trimStr (lowerStr raw)), 0)) ∧
    (trimStr (lowerStr raw) ∉ cfg.allowedDomains →
      removedomainCmd s gid raw =
        (s, Reply.domainMissing (trimStr (lowerStr raw)), 0)) := by
  have hg : getGuildConfigM s gid = ⟨cfg, s.disk, false⟩ := by
    unfold getGuildConfigM
    rw [h]
  constructor
  · intro hmem
    simp only [allowdomainCmd, hg]
    rw [if_pos hmem]
    rfl
  · intro hnot
    have hf : cfg.allowedDomains.filter
        (fun d => d ≠ trimStr (lowerStr raw)) = cfg.allowedDomains :=
      filter_ne_of_not_mem hnot
    simp only [removedomainCmd, hg, hf]
    rw [if_neg (lt_irrefl cfg.allowedDomains.length)]
    rfl

/-- C6 witness: both no-op branches exercised against the default entry. -/
theorem c6_noop_witness :
    allowdomainCmd procWithG gidG (strOf "4cdn.org") =
      (procWithG, Reply.domainAlready (strOf "4cdn.org"), 0) ∧
    removedomainCmd procWithG gidG (strOf "nope.com") =
      (procWithG, Reply.domainMissing (strOf "nope.com"), 0) :=
  ⟨(c6_noop_mutations procWithG gidG (strOf "4cdn.org") defaultConfig
      (by decide)).1 (by decide),
   (c6_noop_mutations procWithG gidG (strOf "nope.com") defaultConfig
      (by decide)).2 (by decide)⟩

/-- C9: a message outside a guild or authored by a bot returns before
anything happens: the multi-link handler produces no effect at all (no
config load, no network request, no file, no delete, no repost), and the
single-link handler produces nothing but its unconditional glob sweep of
leftover temp files — in particular no network request, no file creation,
no delete and no repost; the bot therefore never reprocesses its own
webhook reposts. -/
theorem c9_guard_no_effects (s : ProcState) (gid : Str) (msg : MessageMeta)
    (envs : List (LinkEnv × Str)) (w : Bool) (dl : List Str) (e : SingleEnv)
    (h : ¬ msg.inGuild ∨ msg.authorBot) :
    handleMessage s gid msg envs w = ⟨[], [], []⟩ ∧
    singleHandle dl msg e = ⟨globCleanup e.cwdTemp [], []⟩ ∧
    ∀ eff ∈ (singleHandle dl msg e).effects, ∃ f, eff = Effect.unlink f := by
  refine ⟨?_, ?_, ?_⟩
  · unfold handleMessage
    rw [if_pos h]
  · unfold singleHandle
    rw [if_pos h]
  · intro eff heff
    unfold singleHandle at heff
    rw [if_pos h] at heff
    unfold globCleanup at heff
    obtain ⟨f, _, hf⟩ := List.mem_map.mp heff
    exact ⟨f, hf.symm⟩

/-- C9 witness: a bot-authored guild message with a rehostable link. -/
theorem c9_guard_witness :
    handleMessage procWithG gidG
        ⟨true, true, strOf "https://i.4cdn.org/a.jpg"⟩ [] true =
      ⟨[], [], []⟩ ∧
    singleHandle [strOf "4cdn.org"]
        ⟨true, true, strOf "https://i.4cdn.org/a.jpg"⟩ sEnvFix =
      ⟨globCleanup sEnvFix.cwdTemp [], []⟩ :=
  ⟨(c9_guard_no_effects procWithG gidG
      ⟨true, true, strOf "https://i.4cdn.org/a.jpg"⟩ [] true
      [strOf "4cdn.org"] sEnvFix (by decide)).1,
   (c9_guard_no_effects procWithG gidG
      ⟨true, true, strOf "https://i.4cdn.org/a.jpg"⟩ [] true
      [strOf "4cdn.org"] sEnvFix (by decide)).2.1⟩

/-- A passed guard means: in a guild, not authored by a bot. -/
theorem guard_split {msg : MessageMeta}
    (h : ¬ (¬ msg.inGuild ∨ msg.authorBot)) :
    msg.inGuild = true ∧ msg.authorBot = false := by
  constructor
  · cases hb : msg.inGuild with
    | true => rfl
    | false => exact absurd (Or.inl (by simp [hb])) h
  · cases hb : msg.authorBot with
    | false => rfl
    | true => exact absurd (Or.inr hb) h

/-- Unlinking a `temp_cdn_`-named file is always part of the glob sweep
that saw it. -/
theorem unlink_in_glob (cwd : List Str) (ts ext : Str) (effs : List Effect) :
    Effect.unlink (strOf "temp_cdn_" ++ ts ++ ext) ∈
      effs ++ globCleanup cwd [strOf "temp_cdn_" ++ ts ++ ext] := by
  refine List.mem_append.mpr (Or.inr ?_)
  unfold globCleanup
  refine List.mem_map_of_mem Effect.unlink ?_
  refine List.mem_filter.mpr
    ⟨List.mem_append.mpr (Or.inr (List.mem_singleton.mpr rfl)), ?_⟩
  rw [List.append_assoc]
  exact startsList_same (strOf "temp_cdn_") (ts ++ ext)

/-- C4: the 10 MiB cap, in three parts.  (a) When the size probe reports a
content length over the cap, the candidate is discarded before any file is
written: the run state is unchanged and no create-file effect is emitted.
(b) Every staged asset handed to the republish step measures at most the
cap.  (c) A candidate whose written file measures over the cap is not
staged and its file is scheduled for deletion. -/
theorem c4_size_cap :
    (∀ (cfg : GuildConfig) (st : RunState) (it : LinkItem),
      MAX_FILE_SIZE < computedLen it.env →
        processLink cfg st it = st ∧
        Effect.createFile it.fname ∉ linkEffects cfg it) ∧
    (∀ (cfg : GuildConfig) (content : Str) (items : List LinkItem),
      ∀ a ∈ (runLinks cfg ⟨content, [], [], []⟩ items).files,
        a.2 ≤ MAX_FILE_SIZE) ∧
    (∀ (cfg : GuildConfig) (st : RunState) (it : LinkItem),
      outcomeOf cfg it = Outcome.oversizeBody →
        (processLink cfg st it).files = st.files ∧
        it.fname ∈ (processLink cfg st it).toDelete) := by
  refine ⟨?_, ?_, ?_⟩
  · intro cfg st it h
    rcases @outcomeOf_big cfg it h with ho | ho | ho | ho <;>
      exact ⟨by simp [processLink, ho, applyOutcome],
             by simp [linkEffects, ho]⟩
  · intro cfg content items a ha
    exact runLinks_files_le cfg items ⟨content, [], [], []⟩
      (fun b hb => absurd hb (List.not_mem_nil b)) a ha
  · intro cfg st it h
    unfold processLink
    rw [h]
    exact ⟨rfl, by simp [applyOutcome]⟩

/-- C7: candidates are processed sequentially in scan order — the run on
`it :: rest` is the run on `rest` started from the state after `it` — and
a failing candidate (any non-staged outcome: policy skip, oversize, fetch
error, staging error) contributes nothing and never prevents processing of
the remaining candidates: the staged assets and the final content are
exactly those of the run without it. -/
theorem c7_sequential_isolation :
    (∀ (cfg : GuildConfig) (st : RunState) (it : LinkItem)
       (rest : List LinkItem),
      runLinks cfg st (it :: rest) =
        runLinks cfg (processLink cfg st it) rest) ∧
    (∀ (cfg : GuildConfig) (st : RunState) (it : LinkItem)
       (rest : List LinkItem), outcomeOf cfg it ≠ Outcome.staged →
      (runLinks cfg st (it :: rest)).files =
        (runLinks cfg st rest).files ∧
      (runLinks cfg st (it :: rest)).content =
        (runLinks cfg st rest).content) :=
  ⟨fun cfg st it rest => runLinks_cons cfg st it rest,
   fun _ st it rest h => runLinks_skip st it rest h⟩

/-- C5: every local temporary file created during a pipeline run is
deleted by the cleanup step on every exit path.  Multi-link handler: every
created file is in `filesToDelete`, all of which the `finally` block
unlinks whatever the policy, size, fetch or republish outcome (an absent
file is tolerated: the unlink is wrapped in a swallowed try).  Single-link
handler: the created file's `temp_cdn_`-prefixed name matches the glob
pattern of the `finally` sweep, which runs on every path. -/
theorem c5_cleanup_complete :
    (∀ (s : ProcState) (gid : Str) (msg : MessageMeta)
       (envs : List (LinkEnv × Str)) (w : Bool),
      ∀ f ∈ (handleMessage s gid msg envs w).created,
        Effect.unlink f ∈ (handleMessage s gid msg envs w).effects) ∧
    (∀ (dl : List Str) (msg : MessageMeta) (e : SingleEnv),
      ∀ f ∈ (singleHandle dl msg e).created,
        Effect.unlink f ∈ (singleHandle dl msg e).effects) := by
  constructor
  · intro s gid msg envs w f hf
    by_cases hguard : ¬ msg.inGuild ∨ msg.authorBot
    · simp only [handleMessage, if_pos hguard] at hf
      exact absurd hf (List.not_mem_nil f)
    · by_cases hlinks : urlScan msg.content = []
      · simp only [handleMessage, if_neg hguard, if_pos hlinks] at hf
        exact absurd hf (List.not_mem_nil f)
      · simp only [handleMessage, if_neg hguard, if_neg hlinks] at hf ⊢
        have hd : f ∈ (runLinks (getGuildConfigM s gid).cfg
            ⟨msg.content, [], [], []⟩
            (zipItems (urlScan msg.content) envs)).toDelete :=
          runLinks_created_sub (getGuildConfigM s gid).cfg
            (zipItems (urlScan msg.content) envs)
            ⟨msg.content, [], [], []⟩
            (fun x hx => absurd hx (List.not_mem_nil x)) f hf
        exact List.mem_append.mpr
          (Or.inr (List.mem_map_of_mem Effect.unlink hd))
  · intro dl msg e f hf
    by_cases hguard : ¬ msg.inGuild ∨ msg.authorBot
    · simp only [singleHandle, if_pos hguard] at hf
      exact absurd hf (List.not_mem_nil f)
    · cases hscan : (cdnScan dl msg.content).1 with
      | nil =>
        simp only [singleHandle, if_neg hguard, hscan] at hf
        exact absurd hf (List.not_mem_nil f)
      | cons l ls =>
        by_cases hbig : MAX_FILE_SIZE < computedLen e.link
        · simp only [singleHandle, if_neg hguard, hscan, if_pos hbig] at hf
          exact absurd hf (List.not_mem_nil f)
        · by_cases hfetch : ¬ e.link.fetchOk
          · simp only [singleHandle, if_neg hguard, hscan, if_neg hbig,
              if_pos hfetch] at hf
            exact absurd hf (List.not_mem_nil f)
          · cases hp : parseURL l with
            | none =>
              simp only [singleHandle, if_neg hguard, hscan, if_neg hbig,
                if_neg hfetch, hp] at hf
              exact absurd hf (List.not_mem_nil f)
            | some u =>
              by_cases hopen : ¬ e.link.openOk
              · simp only [singleHandle, if_neg hguard, hscan, if_neg hbig,
                  if_neg hfetch, hp, if_pos hopen] at hf
                exact absurd hf (List.not_mem_nil f)
              · by_cases hwrite : ¬ e.link.writeOk
                · simp only [singleHandle, if_neg hguard, hscan,
                    if_neg hbig, if_neg hfetch, hp, if_neg hopen,
                    if_pos hwrite] at hf ⊢
                  rw [List.mem_singleton] at hf
                  subst hf
                  exact unlink_in_glob e.cwdTemp e.ts (extname u.pathname) _
                · by_cases hbody : MAX_FILE_SIZE < e.link.bodySize
                  · simp only [singleHandle, if_neg hguard, hscan,
                      if_neg hbig, if_neg hfetch, hp, if_neg hopen,
                      if_neg hwrite, if_pos hbody] at hf ⊢
                    rw [List.mem_singleton] at hf
                    subst hf
                    exact unlink_in_glob e.cwdTemp e.ts (extname u.pathname) _
                  · by_cases hweb : ¬ e.webhookOk
                    · simp only [singleHandle, if_neg hguard, hscan,
                        if_neg hbig, if_neg hfetch, hp, if_neg hopen,
                        if_neg hwrite, if_neg hbody, if_pos hweb] at hf ⊢
                      rw [List.mem_singleton] at hf
                      subst hf
                      exact unlink_in_glob e.cwdTemp e.ts
                        (extname u.pathname) _
                    · simp only [singleHandle, if_neg hguard, hscan,
                        if_neg hbig, if_neg hfetch, hp, if_neg hopen,
                        if_neg hwrite, if_neg hbody, if_neg hweb] at hf ⊢
                      rw [List.mem_singleton] at hf
                      subst hf
                      exact unlink_in_glob e.cwdTemp e.ts
                        (extname u.pathname) _

/-- The C8 counterexample message: the staged link's text also occurs
earlier, inside the disallowed link's matched text. -/
def c8msg : MessageMeta :=
  ⟨true, false,
   strOf
     "https://evil.com/x/https://i.4cdn.org/a.jpg https://i.4cdn.org/a.jpg"⟩

/-- The C8 counterexample run. -/
def c8run : MsgResult :=
  handleMessage procWithG gidG c8msg
    [(envFix, strOf "/temp/f1.jpg"), (envFix, strOf "/temp/f2.jpg")] true

/-- C8 counterexample: the claim says that when two links are present and
exactly one is staged, only the staged link's matched text is removed and
the disallowed link's text survives verbatim.  `replace` removes the
FIRST occurrence of the staged text, which here sits inside the
disallowed link: the run stages only the allowed link, yet the reposted
content no longer contains the disallowed link's text (it was cut in two)
while the staged link's own match survives. -/
theorem c8_first_occurrence_mangles :
    c8run.staged = [(strOf "/temp/f2.jpg", 100)] ∧
    Effect.webhookSend
        (strOf "https://evil.com/x/ https://i.4cdn.org/a.jpg")
        [strOf "/temp/f2.jpg"] ∈ c8run.effects ∧
    containsSub (strOf "https://evil.com/x/ https://i.4cdn.org/a.jpg")
      (strOf "https://evil.com/x/https://i.4cdn.org/a.jpg") = false ∧
    containsSub (strOf "https://evil.com/x/ https://i.4cdn.org/a.jpg")
      (strOf "https://i.4cdn.org/a.jpg") = true := by
  decide

/-- C8 (amended): in a two-link message where the first candidate is
rejected by policy and the second is staged, the replacement content is
the original with the FIRST occurrence of the staged link's matched text
removed and the result whitespace-trimmed; when that first occurrence is
the staged link's own match (hypothesis `hfirst`), the rejected link's
text — present earlier in the message — survives in the replacement
content. -/
theorem c8_amended_first_occurrence (s : ProcState) (gid : Str)
    (msg : MessageMeta) (la lb x z pfx mid : Str) (ea eb : LinkEnv)
    (fa fb : Str)
    (hguard : ¬ (¬ msg.inGuild ∨ msg.authorBot))
    (hscan : urlScan msg.content = [la, lb])
    (hA : outcomeOf (getGuildConfigM s gid).cfg ⟨la, ea, fa⟩ =
            Outcome.skippedDomain ∨
          outcomeOf (getGuildConfigM s gid).cfg ⟨la, ea, fa⟩ =
            Outcome.skippedExt)
    (hB : outcomeOf (getGuildConfigM s gid).cfg ⟨lb, eb, fb⟩ =
            Outcome.staged)
    (hcontent : msg.content = x ++ lb ++ z)
    (hfirst : findSub msg.content lb = some x.length)
    (hx : x = pfx ++ la ++ mid)
    (hla : la ≠ []) (hlaw : ∀ c ∈ la, isWs c = false) :
    Effect.webhookSend (trimStr (x ++ z)) [fb] ∈
      (handleMessage s gid msg [(ea, fa), (eb, fb)] true).effects ∧
    ∃ u v, trimStr (x ++ z) = u ++ la ++ v := by
  have hrepl : replaceFirst msg.content lb = x ++ z := by
    rw [hcontent] at hfirst ⊢
    exact replaceFirst_split hfirst
  have hA' : processLink (getGuildConfigM s gid).cfg
      ⟨msg.content, [], [], []⟩ ⟨la, ea, fa⟩ =
      ⟨msg.content, [], [], []⟩ := by
    unfold processLink
    rcases hA with hA | hA <;> rw [hA] <;> rfl
  have hB' : processLink (getGuildConfigM s gid).cfg
      (⟨msg.content, [], [], []⟩ : RunState) ⟨lb, eb, fb⟩ =
      ⟨trimStr (x ++ z), [(fb, eb.bodySize)], [fb], [fb]⟩ := by
    unfold processLink
    rw [hB]
    simp only [applyOutcome, List.nil_append]
    rw [hrepl]
  have hrun : runLinks (getGuildConfigM s gid).cfg
      ⟨msg.content, [], [], []⟩
      [⟨la, ea, fa⟩, ⟨lb, eb, fb⟩] =
      ⟨trimStr (x ++ z), [(fb, eb.bodySize)], [fb], [fb]⟩ := by
    show processLink (getGuildConfigM s gid).cfg
        (processLink (getGuildConfigM s gid).cfg
          ⟨msg.content, [], [], []⟩ ⟨la, ea, fa⟩) ⟨lb, eb, fb⟩ = _
    rw [hA', hB']
  obtain ⟨hig, hbot⟩ := guard_split hguard
  constructor
  · simp [handleMessage, hig, hbot, hscan, zipItems, hrun,
      List.mem_append, List.mem_cons]
  · obtain ⟨u, v, huv⟩ := sub_trimStr hla hlaw pfx (mid ++ z)
    refine ⟨u, v, ?_⟩
    rw [hx, List.append_assoc (pfx ++ la) mid z]
    exact huv

/-- C8 amended witness: scenario D — first link allowed domain but
disallowed extension, second link staged; the staged text occurs only at
its own match. -/
theorem c8_amended_witness :
    Effect.webhookSend
        (trimStr (strOf "https://i.4cdn.org/a.exe " ++ strOf ""))
        [strOf "/temp/f2.jpg"] ∈
      (handleMessage procWithG gidG
        ⟨true, false,
         strOf "https://i.4cdn.org/a.exe https://i.4cdn.org/b.jpg"⟩
        [(envFix, strOf "/temp/f1.jpg"), (envFix, strOf "/temp/f2.jpg")]
        true).effects :=
  (c8_amended_first_occurrence procWithG gidG
    ⟨true, false,
     strOf "https://i.4cdn.org/a.exe https://i.4cdn.org/b.jpg"⟩
    (strOf "https://i.4cdn.org/a.exe") (strOf "https://i.4cdn.org/b.jpg")
    (strOf "https://i.4cdn.org/a.exe ") (strOf "")
    (strOf "") (strOf " ") envFix envFix
    (strOf "/temp/f1.jpg") (strOf "/temp/f2.jpg")
    (by decide) (by decide) (Or.inr (by decide)) (by decide)
    (by decide) (by decide) (by decide) (by decide) (by decide)).1

/-- C10: in the single-link variant, when the CDN pattern matches two or
more times and the first candidate succeeds end to end, exactly one probe,
one fetch and one staged file are produced — all for the first match —
while the reposted content is the residual of removing the text of EVERY
match (the global-regex replace), so later links' text is dropped without
being re-hosted. -/
theorem c10_single_link_drops_later (dl : List Str) (msg : MessageMeta)
    (e : SingleEnv) (l1 l2 : Str) (ls : List Str) (resid : Str) (u : URLRec)
    (hguard : ¬ (¬ msg.inGuild ∨ msg.authorBot))
    (hscan : cdnScan dl msg.content = (l1 :: l2 :: ls, resid))
    (hbig : ¬ MAX_FILE_SIZE < computedLen e.link)
    (hfetch : e.link.fetchOk = true)
    (hp : parseURL l1 = some u)
    (hopen : e.link.openOk = true)
    (hwrite : e.link.writeOk = true)
    (hbody : ¬ MAX_FILE_SIZE < e.link.bodySize)
    (hweb : e.webhookOk = true) :
    singleHandle dl msg e =
      ⟨[Effect.headReq l1, Effect.getReq l1,
        Effect.createFile (strOf "temp_cdn_" ++ e.ts ++ extname u.pathname),
        Effect.deleteMessage,
        Effect.webhookSend (trimStr resid)
          [strOf "temp_cdn_" ++ e.ts ++ extname u.pathname]] ++
        globCleanup e.cwdTemp
          [strOf "temp_cdn_" ++ e.ts ++ extname u.pathname],
       [strOf "temp_cdn_" ++ e.ts ++ extname u.pathname]⟩ := by
  obtain ⟨hig, hbot⟩ := guard_split hguard
  simp [singleHandle, hig, hbot, hscan, if_neg hbig, hfetch, hp,
    hopen, hwrite, if_neg hbody, hweb]

/-- C10 witness: a guild message with two CDN links, everything healthy:
one file from the first link, both link texts gone from the repost. -/
theorem c10_witness :
    singleHandle [strOf "4cdn.org"]
        ⟨true, false,
         strOf "see https://i.4cdn.org/b/1.jpg and https://i.4cdn.org/b/2.png !"⟩
        sEnvFix =
      ⟨[Effect.headReq (strOf "https://i.4cdn.org/b/1.jpg"),
        Effect.getReq (strOf "https://i.4cdn.org/b/1.jpg"),
        Effect.createFile (strOf "temp_cdn_" ++ strOf "111" ++
          extname (URLRec.pathname ⟨true, strOf "i.4cdn.org", none,
            strOf "/b/1.jpg"⟩)),
        Effect.deleteMessage,
        Effect.webhookSend (trimStr (strOf "see  and  !"))
          [strOf "temp_cdn_" ++ strOf "111" ++
            extname (URLRec.pathname ⟨true, strOf "i.4cdn.org", none,
              strOf "/b/1.jpg"⟩)]] ++
        globCleanup sEnvFix.cwdTemp
          [strOf "temp_cdn_" ++ strOf "111" ++
            extname (URLRec.pathname ⟨true, strOf "i.4cdn.org", none,
              strOf "/b/1.jpg"⟩)],
       [strOf "temp_cdn_" ++ strOf "111" ++
         extname (URLRec.pathname ⟨true, strOf "i.4cdn.org", none,
           strOf "/b/1.jpg"⟩)]⟩ :=
  c10_single_link_drops_later [strOf "4cdn.org"]
    ⟨true, false,
     strOf "see https://i.4cdn.org/b/1.jpg and https://i.4cdn.org/b/2.png !"⟩
    sEnvFix (strOf "https://i.4cdn.org/b/1.jpg")
    (strOf "https://i.4cdn.org/b/2.png") [] (strOf "see  and  !")
    ⟨true, strOf "i.4cdn.org", none, strOf "/b/1.jpg"⟩
    (by decide) (by decide) (by decide) (by decide) (by decide)
    (by decide) (by decide) (by decide) (by decide)

/-- C4 witness: (a) a probed 11 MiB candidate leaves the state untouched
with no file-creation effect; (b) the one asset staged by a healthy run
measures within the cap; (c) a candidate measuring 11 MiB on disk is not
staged and its file is scheduled for deletion. -/
theorem c4_size_cap_witness :
    (processLink defaultConfig ⟨strOf "x", [], [], []⟩
        ⟨strOf "https://i.4cdn.org/a.jpg",
         ⟨true, some (11 * 1024 * 1024), true, true, true, 100⟩,
         strOf "/temp/big.jpg"⟩ = ⟨strOf "x", [], [], []⟩ ∧
      Effect.createFile (strOf "/temp/big.jpg") ∉
        linkEffects defaultConfig
          ⟨strOf "https://i.4cdn.org/a.jpg",
           ⟨true, some (11 * 1024 * 1024), true, true, true, 100⟩,
           strOf "/temp/big.jpg"⟩) ∧
    (100 : Nat) ≤ MAX_FILE_SIZE ∧
    ((processLink defaultConfig ⟨strOf "x", [], [], []⟩
        ⟨strOf "https://i.4cdn.org/a.jpg",
         ⟨true, some 100, true, true, true, 11 * 1024 * 1024⟩,
         strOf "/temp/fat.jpg"⟩).files = [] ∧
      strOf "/temp/fat.jpg" ∈
        (processLink defaultConfig ⟨strOf "x", [], [], []⟩
          ⟨strOf "https://i.4cdn.org/a.jpg",
           ⟨true, some 100, true, true, true, 11 * 1024 * 1024⟩,
           strOf "/temp/fat.jpg"⟩).toDelete) :=
  ⟨c4_size_cap.1 defaultConfig ⟨strOf "x", [], [], []⟩
     ⟨strOf "https://i.4cdn.org/a.jpg",
      ⟨true, some (11 * 1024 * 1024), true, true, true, 100⟩,
      strOf "/temp/big.jpg"⟩ (by decide),
   c4_size_cap.2.1 defaultConfig (strOf "ok")
     [⟨strOf "https://i.4cdn.org/a.jpg", envFix, strOf "/temp/f.jpg"⟩]
     (strOf "/temp/f.jpg", 100) (by decide),
   c4_size_cap.2.2 defaultConfig ⟨strOf "x", [], [], []⟩
     ⟨strOf "https://i.4cdn.org/a.jpg",
      ⟨true, some 100, true, true, true, 11 * 1024 * 1024⟩,
      strOf "/temp/fat.jpg"⟩ (by decide)⟩

/-- C5 witness: a healthy multi-link run and a healthy single-link run
both unlink the one file they created. -/
theorem c5_cleanup_witness :
    Effect.unlink (strOf "/temp/f1.jpg") ∈
      (handleMessage procWithG gidG
        ⟨true, false, strOf "look https://i.4cdn.org/b/1234.jpg"⟩
        [(envFix, strOf "/temp/f1.jpg")] true).effects ∧
    Effect.unlink (strOf "temp_cdn_111.jpg") ∈
      (singleHandle [strOf "4cdn.org"]
        ⟨true, false, strOf "see https://i.4cdn.org/b/1.jpg"⟩
        sEnvFix).effects :=
  ⟨c5_cleanup_complete.1 procWithG gidG
     ⟨true, false, strOf "look https://i.4cdn.org/b/1234.jpg"⟩
     [(envFix, strOf "/temp/f1.jpg")] true (strOf "/temp/f1.jpg")
     (by decide),
   c5_cleanup_complete.2 [strOf "4cdn.org"]
     ⟨true, false, strOf "see https://i.4cdn.org/b/1.jpg"⟩ sEnvFix
     (strOf "temp_cdn_111.jpg") (by decide)⟩

/-- C7 witness: a fetch-failed first candidate does not change what the
second, healthy candidate stages or the resulting content. -/
theorem c7_isolation_witness :
    (runLinks defaultConfig
        ⟨strOf "a https://i.4cdn.org/x.jpg https://i.4cdn.org/y.jpg", [],
         [], []⟩
        [⟨strOf "https://i.4cdn.org/x.jpg",
          ⟨true, some 100, false, true, true, 100⟩, strOf "/temp/fx.jpg"⟩,
         ⟨strOf "https://i.4cdn.org/y.jpg", envFix,
          strOf "/temp/fy.jpg"⟩]).files =
      (runLinks defaultConfig
        ⟨strOf "a https://i.4cdn.org/x.jpg https://i.4cdn.org/y.jpg", [],
         [], []⟩
        [⟨strOf "https://i.4cdn.org/y.jpg", envFix,
          strOf "/temp/fy.jpg"⟩]).files ∧
    (runLinks defaultConfig
        ⟨strOf "a https://i.4cdn.org/x.jpg https://i.4cdn.org/y.jpg", [],
         [], []⟩
        [⟨strOf "https://i.4cdn.org/x.jpg",
          ⟨true, some 100, false, true, true, 100⟩, strOf "/temp/fx.jpg"⟩,
         ⟨strOf "https://i.4cdn.org/y.jpg", envFix,
          strOf "/temp/fy.jpg"⟩]).content =
      (runLinks defaultConfig
        ⟨strOf "a https://i.4cdn.org/x.jpg https://i.4cdn.org/y.jpg", [],
         [], []⟩
        [⟨strOf "https://i.4cdn.org/y.jpg", envFix,
          strOf "/temp/fy.jpg"⟩]).content :=
  c7_sequential_isolation.2 defaultConfig
    ⟨strOf "a https://i.4cdn.org/x.jpg https://i.4cdn.org/y.jpg", [], [], []⟩
    ⟨strOf "https://i.4cdn.org/x.jpg",
     ⟨true, some 100, false, true, true, 100⟩, strOf "/temp/fx.jpg"⟩
    [⟨strOf "https://i.4cdn.org/y.jpg", envFix, strOf "/temp/fy.jpg"⟩]
    (by decide)

end ELR
